import Mathlib

/-!
# Verification of the offline personal-finance core

A shallow embedding, in Lean 4, of the persistence and derived-state core of
the `my-finances-offline` app: the entity store (transactions, categories,
accounts, settings), the transaction lifecycle operations
(`addTransaction`, `addRecurringTransaction`, `deleteCategory`), the
recurring/fixed transaction generator (`generateFixedTransactionsForMonth`
with its `processedFixedMonths` idempotency ledger), the balance aggregation
(`getAccountBalances`), and the backup export/import handlers.

Modelling conventions:
* JavaScript `Date` values are modelled as civil calendar triples
  (`JSDate`), with the runtime's normalization of out-of-range month and
  day-of-month fields reproduced by `normDate` (month fields are reduced
  modulo 12 with the year adjusted, day-of-month overflow/underflow rolls
  across month boundaries).  The local time zone is taken to be UTC, so
  parsing a `YYYY-MM-DD` string and re-serializing through
  `toISOString().split('T')[0]` are both the identity on the triple.
  Months are 0-based, as in JavaScript.
* `uuidv4()` is modelled as a fresh-identifier counter (`AppState.nextId`);
  `new Date().toISOString()` timestamps are modelled by an abstract clock
  value (`AppState.now`) that is constant during one operation.
* Monetary `value` fields are modelled as exact integers; the claims about
  balances are algebraic and do not depend on fractional amounts, and
  IEEE-754 rounding is outside the scope of this embedding.
* The IndexedDB object stores are modelled as lists of records, with
  `put` (insert-or-overwrite by key) as `putBy`; the `settings` store is
  modelled by its only used record, the singleton under key `"user"`.
-/

namespace MFO

/-! ## Calendar model (JavaScript `Date` semantics, UTC) -/

/-- Proleptic Gregorian leap-year test, as used by the JS `Date` runtime. -/
def isLeap (y : Int) : Bool := y % 4 == 0 && (y % 100 != 0 || y % 400 == 0)

/-- Number of days of 0-based month `m` of year `y` (for `m` outside
`0..11` the value is irrelevant to normalized dates; it defaults to 31). -/
def monthLen (y m : Int) : Int :=
  if m = 1 then (if isLeap y then 29 else 28)
  else if m = 3 ∨ m = 5 ∨ m = 8 ∨ m = 10 then 30
  else 31

theorem monthLen_lb (y m : Int) : 28 ≤ monthLen y m := by
  unfold monthLen; split_ifs <;> omega

theorem monthLen_ub (y m : Int) : monthLen y m ≤ 31 := by
  unfold monthLen; split_ifs <;> omega

theorem monthLen_11 (y : Int) : monthLen y 11 = 31 := by
  unfold monthLen; split_ifs <;> omega

theorem monthLen_next31 (y m : Int) (h : monthLen y m < 31) :
    monthLen y (m + 1) = 31 := by
  unfold monthLen at *; split_ifs at * <;> omega

/-- A civil calendar date: year, 0-based month, 1-based day-of-month.
This is the observable state of a JS `Date` under the UTC convention. -/
structure JSDate where
  year : Int
  month : Int
  day : Int
deriving Repr, DecidableEq, Inhabited

/-- A `JSDate` whose fields are in normalized ranges. -/
def ValidDate (dt : JSDate) : Prop :=
  0 ≤ dt.month ∧ dt.month ≤ 11 ∧ 1 ≤ dt.day ∧ dt.day ≤ monthLen dt.year dt.month

instance (dt : JSDate) : Decidable (ValidDate dt) := by
  unfold ValidDate; infer_instance

/-- Roll a too-large day-of-month forward across month boundaries. -/
def rollForward (y m d : Int) : JSDate :=
  if monthLen y m < d then
    if m = 11 then rollForward (y + 1) 0 (d - monthLen y m)
    else rollForward y (m + 1) (d - monthLen y m)
  else ⟨y, m, d⟩
termination_by d.toNat
decreasing_by
  · have := monthLen_lb y m; omega
  · have := monthLen_lb y m; omega

/-- Roll a too-small day-of-month backward across month boundaries. -/
def rollBackward (y m d : Int) : JSDate :=
  if d < 1 then
    if m = 0 then rollBackward (y - 1) 11 (d + monthLen (y - 1) 11)
    else rollBackward y (m - 1) (d + monthLen y (m - 1))
  else ⟨y, m, d⟩
termination_by (1 - d).toNat
decreasing_by
  · have := monthLen_lb (y - 1) 11; omega
  · have := monthLen_lb y (m - 1); omega

/-- `new Date(y, m, d)` (equivalently, setting fields of an existing date):
normalize the month into `0..11` adjusting the year (ECMA `MakeDay` floor
division and modulo), then roll the day-of-month into range. -/
def normDate (y m d : Int) : JSDate :=
  if d < 1 then rollBackward (y + m / 12) (m % 12) d
  else rollForward (y + m / 12) (m % 12) d

/-- `date.setDate(n)`: replace the day-of-month, then normalize. -/
def setDateJS (dt : JSDate) (n : Int) : JSDate := normDate dt.year dt.month n

/-- `date.setMonth(n)`: replace the month keeping the day, then normalize. -/
def setMonthJS (dt : JSDate) (n : Int) : JSDate := normDate dt.year n dt.day

/-- `date.setFullYear(n)`: replace the year keeping month/day, normalize. -/
def setFullYearJS (dt : JSDate) (n : Int) : JSDate := normDate n dt.month dt.day

theorem rollForward_stay (y m d : Int) (h : d ≤ monthLen y m) :
    rollForward y m d = ⟨y, m, d⟩ := by
  rw [rollForward]; simp [not_lt.mpr h]

theorem rollForward_roll (y m d : Int) (h : monthLen y m < d) (hm : ¬ m = 11) :
    rollForward y m d = rollForward y (m + 1) (d - monthLen y m) := by
  rw [rollForward]; simp [h, hm]

theorem rollForward_roll11 (y d : Int) (h : monthLen y 11 < d) :
    rollForward y 11 d = rollForward (y + 1) 0 (d - monthLen y 11) := by
  rw [rollForward]; simp [h]

theorem rollBackward_stay (y m d : Int) (h : 1 ≤ d) :
    rollBackward y m d = ⟨y, m, d⟩ := by
  rw [rollBackward]; simp [not_lt.mpr h]

theorem rollBackward_roll (y m d : Int) (h : d < 1) (hm : ¬ m = 0) :
    rollBackward y m d = rollBackward y (m - 1) (d + monthLen y (m - 1)) := by
  rw [rollBackward]; simp [h, hm]

theorem normDate_valid_month (y m d : Int) (hm0 : 0 ≤ m) (hm : m ≤ 11) :
    normDate y m d = if d < 1 then rollBackward y m d else rollForward y m d := by
  unfold normDate
  have h1 : m / 12 = 0 := by omega
  have h2 : m % 12 = m := by omega
  rw [h1, h2]; ring_nf

theorem normDate_id_of_valid (dt : JSDate) (h : ValidDate dt) :
    normDate dt.year dt.month dt.day = dt := by
  obtain ⟨h1, h2, h3, h4⟩ := h
  rw [normDate_valid_month _ _ _ h1 h2, if_neg (by omega), rollForward_stay _ _ _ h4]

/-- The calendar successor of a normalized date: the next civil day. -/
def succDay (dt : JSDate) : JSDate :=
  if dt.day < monthLen dt.year dt.month then ⟨dt.year, dt.month, dt.day + 1⟩
  else if dt.month = 11 then ⟨dt.year + 1, 0, 1⟩
  else ⟨dt.year, dt.month + 1, 1⟩

/-- Advance a date by `n` civil days (the specification-level notion of
"the base date advanced by n days"). -/
def addDays (dt : JSDate) (n : Nat) : JSDate := succDay^[n] dt

theorem rollForward_succ (n : Nat) : ∀ (y m d : Int), d.toNat ≤ n → 0 ≤ m → m ≤ 11 → 1 ≤ d →
    rollForward y m (d + 1) = succDay (rollForward y m d) := by
  induction n with
  | zero => intro y m d h0 _ _ hd; omega
  | succ n ih =>
    intro y m d hle hm0 hm hd
    by_cases hlt : monthLen y m < d
    · by_cases hm11 : m = 11
      · subst hm11
        rw [rollForward_roll11 _ _ hlt, rollForward_roll11 _ _ (by omega)]
        have heq : d + 1 - monthLen y 11 = (d - monthLen y 11) + 1 := by ring
        rw [heq]
        exact ih _ _ _ (by have := monthLen_lb y 11; omega) (by omega) (by omega)
          (by have := monthLen_ub y 11; omega)
      · rw [rollForward_roll _ _ _ hlt hm11, rollForward_roll _ _ _ (by omega) hm11]
        have heq : d + 1 - monthLen y m = (d - monthLen y m) + 1 := by ring
        rw [heq]
        exact ih _ _ _ (by have := monthLen_lb y m; omega) (by omega) (by omega)
          (by have := monthLen_ub y m; omega)
    · rw [rollForward_stay _ _ _ (not_lt.mp hlt)]
      by_cases hdl : d < monthLen y m
      · rw [rollForward_stay _ _ _ (by omega)]
        simp [succDay, hdl]
      · have h31 : monthLen y m < d + 1 := by omega
        by_cases hm11 : m = 11
        · subst hm11
          rw [rollForward_roll11 _ _ h31, show d + 1 - monthLen y 11 = 1 by omega,
            rollForward_stay _ _ _ (by have := monthLen_lb (y + 1) 0; omega)]
          simp [succDay, hdl]
        · rw [rollForward_roll _ _ _ h31 hm11, show d + 1 - monthLen y m = 1 by omega,
            rollForward_stay _ _ _ (by have := monthLen_lb y (m + 1); omega)]
          simp [succDay, hdl, hm11]

/-- Setting the day-of-month field to `d + n` advances a date by `n` civil
days: JS `setDate`-style arithmetic agrees with day-count arithmetic. -/
theorem normDate_addDays (y m d : Int) (hm0 : 0 ≤ m) (hm : m ≤ 11) (hd : 1 ≤ d) (n : Nat) :
    normDate y m (d + n) = addDays (normDate y m d) n := by
  induction n with
  | zero => simp [addDays]
  | succ k ih =>
    have heq : (d + ((k : Int) + 1)) = (d + k) + 1 := by ring
    push_cast
    rw [heq]
    rw [normDate_valid_month _ _ _ hm0 hm, if_neg (by omega)]
    rw [rollForward_succ (d + k).toNat _ _ _ le_rfl hm0 hm (by omega)]
    rw [normDate_valid_month _ _ _ hm0 hm, if_neg (by omega)] at ih
    rw [ih]
    simp [addDays, Function.iterate_succ_apply']

/-! ## Data model (`src/lib/db.ts` types) -/

/-- Transaction type enum: `'income' | 'expense'`. -/
inductive TxType where
  | income
  | expense
deriving Repr, DecidableEq, BEq, Inhabited

/-- Repeat period enum of `RepeatConfig`. -/
inductive Period where
  | daily
  | weekly
  | monthly
  | yearly
  | custom
deriving Repr, DecidableEq, BEq, Inhabited

/-- `RepeatConfig { times, period, customDays? }`. -/
structure RepeatConfig where
  times : Nat
  period : Period
  customDays : Option Nat
deriving Repr, DecidableEq, Inhabited

/-- The `Transaction` record. -/
structure Transaction where
  id : Nat
  type : TxType
  value : Int
  currency : String
  description : String
  categoryId : Nat
  accountId : Nat
  date : JSDate
  isCompleted : Bool
  completedAt : Option Nat
  isFixed : Bool
  isRepeating : Bool
  repeatConfig : Option RepeatConfig
  repeatIndex : Option Nat
  repeatTotal : Option Nat
  parentRepeatId : Option Nat
  observation : String
  tags : List String
  createdAt : Nat
  updatedAt : Nat
deriving Repr, DecidableEq, Inhabited

/-- `Omit<Transaction, 'id' | 'createdAt' | 'updatedAt'>`: the draft a
caller hands to `addTransaction` / `addRecurringTransaction`. -/
structure TxDraft where
  type : TxType
  value : Int
  currency : String
  description : String
  categoryId : Nat
  accountId : Nat
  date : JSDate
  isCompleted : Bool
  completedAt : Option Nat
  isFixed : Bool
  isRepeating : Bool
  repeatConfig : Option RepeatConfig
  repeatIndex : Option Nat
  repeatTotal : Option Nat
  parentRepeatId : Option Nat
  observation : String
  tags : List String
deriving Repr, DecidableEq, Inhabited

/-- The `Category` record. -/
structure Category where
  id : Nat
  type : TxType
  name : String
  color : String
  icon : String
  isDefault : Bool
  isSystem : Bool
  createdAt : Nat
  updatedAt : Nat
deriving Repr, DecidableEq, Inhabited

/-- The `Account` record. -/
structure Account where
  id : Nat
  name : String
  color : String
  icon : String
  isDefault : Bool
  createdAt : Nat
  updatedAt : Nat
deriving Repr, DecidableEq, Inhabited

/-- The `UserSettings` record (the singleton stored under key `"user"`). -/
structure UserSettings where
  name : String
  email : String
  notes : String
  biometricsEnabled : Bool
  accentColor : String
  theme : String
  dateFormat : String
  language : String
  defaultCurrency : String
  firstLaunchLang : String
  processedFixedMonths : List String
  createdAt : Nat
  updatedAt : Nat
deriving Repr, DecidableEq, Inhabited

/-- The IndexedDB database: one list of records per object store; the
`settings` store is represented by its only used record (key `"user"`). -/
structure DB where
  transactions : List Transaction
  categories : List Category
  accounts : List Account
  settings : Option UserSettings
deriving Repr, DecidableEq, Inhabited

/-- Ambient state of the app core: the database plus the fresh-uuid
counter and the current clock value. -/
structure AppState where
  db : DB
  nextId : Nat
  now : Nat
deriving Repr, DecidableEq, Inhabited

/-- `store.put(record)` on a keyed object store: overwrite the record with
the same key if present, otherwise append. -/
def putBy {α κ : Type} [BEq κ] (key : α → κ) (l : List α) (r : α) : List α :=
  if l.any (fun x => key x == key r) then l.map (fun x => if key x == key r then r else x)
  else l ++ [r]

/-! ## Transaction lifecycle (`src/lib/db.ts`) -/

/-- The record built by `addTransaction`: the draft plus a fresh id and
`createdAt`/`updatedAt` timestamps. -/
def mkTxRecord (draft : TxDraft) (id now : Nat) : Transaction :=
  { id := id, type := draft.type, value := draft.value, currency := draft.currency,
    description := draft.description, categoryId := draft.categoryId,
    accountId := draft.accountId, date := draft.date, isCompleted := draft.isCompleted,
    completedAt := draft.completedAt, isFixed := draft.isFixed,
    isRepeating := draft.isRepeating, repeatConfig := draft.repeatConfig,
    repeatIndex := draft.repeatIndex, repeatTotal := draft.repeatTotal,
    parentRepeatId := draft.parentRepeatId, observation := draft.observation,
    tags := draft.tags, createdAt := now, updatedAt := now }

/-- `addTransaction`: assign a fresh id and timestamps, `put` one record.
No referential check of `categoryId`/`accountId` is performed. -/
def addTransaction (draft : TxDraft) (s : AppState) : Transaction × AppState :=
  let tx := mkTxRecord draft s.nextId s.now
  (tx, { s with
         nextId := s.nextId + 1
         db := { s.db with transactions := putBy Transaction.id s.db.transactions tx } })

/-- `customDays || 30`: the fallback applies when `customDays` is absent
or `0` (JS falsiness). -/
def effCustomDays (cd : Option Nat) : Nat :=
  match cd with
  | none => 30
  | some k => if k = 0 then 30 else k

/-- Date of installment `i` (0-indexed), from the `switch (period)` in
`addRecurringTransaction`; all cases mutate a copy of the base date. -/
def installmentDate (period : Period) (cd : Option Nat) (base : JSDate) (i : Nat) : JSDate :=
  match period with
  | .daily => setDateJS base (base.day + (i : Int))
  | .weekly => setDateJS base (base.day + (i : Int) * 7)
  | .monthly => setMonthJS base (base.month + (i : Int))
  | .yearly => setFullYearJS base (base.year + (i : Int))
  | .custom => setDateJS base (base.day + (i : Int) * (effCustomDays cd : Int))

/-- The record of installment `i` of a recurring series. -/
def mkInstallment (draft : TxDraft) (cfg : RepeatConfig) (pid now i id : Nat) : Transaction :=
  { mkTxRecord draft id now with
    date := installmentDate cfg.period cfg.customDays draft.date i,
    parentRepeatId := some pid,
    repeatIndex := some (i + 1),
    repeatTotal := some cfg.times }

/-- The `for (let i = 0; i < times; i++)` loop of `addRecurringTransaction`:
`i` is the loop index, the second argument the remaining iteration count. -/
def addInstallmentsLoop (draft : TxDraft) (cfg : RepeatConfig) (pid now : Nat) :
    Nat → Nat → AppState → List Transaction × AppState
  | _, 0, s => ([], s)
  | i, r + 1, s =>
    let tx := mkInstallment draft cfg pid now i s.nextId
    let s1 : AppState := { s with
      nextId := s.nextId + 1
      db := { s.db with transactions := putBy Transaction.id s.db.transactions tx } }
    let p := addInstallmentsLoop draft cfg pid now (i + 1) r s1
    (tx :: p.1, p.2)

/-- `addRecurringTransaction`: a single plain insert when the draft is not
repeating or has no config, otherwise `times` installments sharing one
freshly generated `parentRepeatId`. -/
def addRecurringTransaction (draft : TxDraft) (s : AppState) : List Transaction × AppState :=
  match draft.isRepeating, draft.repeatConfig with
  | true, some cfg =>
    let pid := s.nextId
    addInstallmentsLoop draft cfg pid s.now 0 cfg.times { s with nextId := s.nextId + 1 }
  | _, _ =>
    let p := addTransaction draft s
    ([p.1], p.2)

/-- `getTransactionsByMonth`: filter by the parsed date's year and month. -/
def getTransactionsByMonth (year month : Int) (db : DB) : List Transaction :=
  db.transactions.filter fun tx => tx.date.year == year && tx.date.month == month

/-- `deleteCategory(id, moveToId)`: repoint every matching transaction to
`moveToId` (bumping `updatedAt`), then delete the category record. -/
def deleteCategory (id moveToId : Nat) (s : AppState) : AppState :=
  { s with db := { s.db with
      transactions := s.db.transactions.map fun tx =>
        if tx.categoryId == id then { tx with categoryId := moveToId, updatedAt := s.now }
        else tx,
      categories := s.db.categories.filter fun c => !(c.id == id) } }

/-! ## Fixed-transaction generator (`src/lib/fixedTransactions.ts`) -/

/-- `String(n).padStart(2, '0')`. -/
def pad2 (n : Int) : String :=
  let str := toString n
  if str.length < 2 then "0" ++ str else str

/-- The `YYYY-MM` ledger key of a `(year, month)` pair. -/
def getMonthKey (y m : Int) : String := toString y ++ "-" ++ pad2 (m + 1)

/-- `isMonthProcessed`: `false` when the settings record is absent. -/
def isMonthProcessed (y m : Int) (db : DB) : Bool :=
  match db.settings with
  | none => false
  | some st => st.processedFixedMonths.contains (getMonthKey y m)

/-- `markMonthAsProcessed`: append the month key to the ledger and persist
the settings; a silent no-op when the settings record is absent. -/
def markMonthAsProcessed (y m : Int) (s : AppState) : AppState :=
  match s.db.settings with
  | none => s
  | some st =>
    if st.processedFixedMonths.contains (getMonthKey y m) then s
    else { s with db := { s.db with settings := some { st with
            processedFixedMonths := st.processedFixedMonths ++ [getMonthKey y m]
            updatedAt := s.now } } }

/-- The previous calendar month of `(y, m)`, as computed by the source
(`prevMonth = month - 1; if (prevMonth < 0) { prevMonth = 11; prevYear -= 1 }`). -/
def prevMonthOf (y m : Int) : Int × Int :=
  if m - 1 < 0 then (y - 1, 11) else (y, m - 1)

/-- The clamped clone date: `new Date(year, month, originalDate.getDate())`
followed by the `setDate(0); setMonth(month + 1); setDate(0)` correction
when the constructed date fell outside the target month. -/
def fixedCloneDate (y m : Int) (orig : JSDate) : JSDate :=
  let nd := normDate y m orig.day
  if nd.month ≠ m then
    let d1 := setDateJS nd 0
    let d2 := setMonthJS d1 (m + 1)
    setDateJS d2 0
  else nd

/-- The draft passed to `addTransaction` for each previous-month fixed
transaction: same payload fields, clamped date, pending, fixed, not
repeating. -/
def fixedCloneDraft (y m : Int) (tx : Transaction) : TxDraft :=
  { type := tx.type, value := tx.value, currency := tx.currency,
    description := tx.description, categoryId := tx.categoryId,
    accountId := tx.accountId, date := fixedCloneDate y m tx.date,
    isCompleted := false, completedAt := none, isFixed := true,
    isRepeating := false, repeatConfig := none, repeatIndex := none,
    repeatTotal := none, parentRepeatId := none,
    observation := tx.observation, tags := tx.tags }

/-- The `for (const tx of previousFixedTransactions)` loop: clone each
previous-month fixed transaction into the target month, counting. -/
def generateFixedLoop (y m : Int) : List Transaction → AppState → Nat × AppState
  | [], s => (0, s)
  | tx :: rest, s =>
    let p1 := addTransaction (fixedCloneDraft y m tx) s
    let p2 := generateFixedLoop y m rest p1.2
    (p2.1 + 1, p2.2)

/-- `generateFixedTransactionsForMonth(year, month)`. -/
def generateFixedTransactionsForMonth (y m : Int) (s : AppState) : Nat × AppState :=
  if isMonthProcessed y m s.db then (0, s)
  else
    let p := prevMonthOf y m
    let prevFixed := (getTransactionsByMonth p.1 p.2 s.db).filter (·.isFixed)
    if prevFixed.isEmpty then (0, markMonthAsProcessed y m s)
    else
      let q := generateFixedLoop y m prevFixed s
      (q.1, markMonthAsProcessed y m q.2)

/-! ## Balance aggregation (`getAccountBalances`) -/

/-- Association-list read, mirroring JS object property access. -/
def assocGet {κ β : Type} [BEq κ] (l : List (κ × β)) (k : κ) : Option β :=
  match l with
  | [] => none
  | p :: rest => if p.1 == k then some p.2 else assocGet rest k

/-- Association-list write, mirroring JS object property assignment:
overwrite in place when the key exists, append otherwise. -/
def assocSet {κ β : Type} [BEq κ] (l : List (κ × β)) (k : κ) (v : β) : List (κ × β) :=
  if l.any (fun p => p.1 == k) then l.map (fun p => if p.1 == k then (k, v) else p)
  else l ++ [(k, v)]

/-- The nested `Record<string, Record<string, number>>` of balances:
account id ↦ currency ↦ signed total. -/
abbrev BalMap := List (Nat × List (String × Int))

/-- `if (!balances[a]) balances[a] = {}`: initialise a missing account
entry (an object is never falsy, so only absence triggers it). -/
def ensureAccount (bal : BalMap) (a : Nat) : BalMap :=
  match assocGet bal a with
  | none => bal ++ [(a, [])]
  | some _ => bal

/-- `if (!balances[a][c]) balances[a][c] = 0`: a missing or zero (falsy)
entry is (re)set to 0. -/
def ensureCurrency (cur : List (String × Int)) (c : String) : List (String × Int) :=
  match assocGet cur c with
  | none => assocSet cur c 0
  | some v => if v == 0 then assocSet cur c 0 else cur

/-- One iteration of the transaction loop in `getAccountBalances`. -/
def balStep (bal : BalMap) (tx : Transaction) : BalMap :=
  if !tx.isCompleted then bal
  else
    let bal1 := ensureAccount bal tx.accountId
    let cur1 := ensureCurrency ((assocGet bal1 tx.accountId).getD []) tx.currency
    let v := (assocGet cur1 tx.currency).getD 0
    let v1 := match tx.type with
      | .income => v + tx.value
      | .expense => v - tx.value
    assocSet bal1 tx.accountId (assocSet cur1 tx.currency v1)

/-- `getAccountBalances`: seed an empty currency map per account, then
fold the completed transactions. -/
def getAccountBalances (db : DB) : BalMap :=
  db.transactions.foldl balStep (db.accounts.map fun a => (a.id, ([] : List (String × Int))))

/-- Read `balances[a][c]` out of the nested map. -/
def lookupBalance (bal : BalMap) (a : Nat) (c : String) : Option Int :=
  match assocGet bal a with
  | none => none
  | some cur => assocGet cur c

/-- Specification-side sum: total `value` of completed transactions of
one type in one `(account, currency)` bucket. -/
def completedSum (l : List Transaction) (t : TxType) (a : Nat) (c : String) : Int :=
  ((l.filter fun tx =>
    tx.isCompleted && decide (tx.type = t) && tx.accountId == a && tx.currency == c).map
      (·.value)).sum

/-- Whether some completed transaction touches the `(a, c)` bucket. -/
def touchesBucket (l : List Transaction) (a : Nat) (c : String) : Bool :=
  l.any fun tx => tx.isCompleted && tx.accountId == a && tx.currency == c

/-! ## Backup export / import (`SettingsPage.tsx`) -/

/-- The version-1 backup file produced by `handleExportData`. -/
structure ExportData where
  version : Nat
  exportedAt : Nat
  transactions : List Transaction
  categories : List Category
  accounts : List Account
  settings : Option UserSettings
deriving Repr, DecidableEq, Inhabited

/-- `handleExportData`: snapshot all four collections. -/
def handleExportData (s : AppState) : ExportData :=
  { version := 1, exportedAt := s.now, transactions := s.db.transactions,
    categories := s.db.categories, accounts := s.db.accounts,
    settings := s.db.settings }

/-- `handleImportData`: merge the file into the store, deduplicating
categories by `(type, name)`, accounts by `name`, transactions by `id`;
the dedup key sets are computed once, before the insert loops. -/
def handleImportData (data : ExportData) (db : DB) : DB :=
  let existingCatKeys := db.categories.map fun c => (c.type, c.name)
  let cats := data.categories.foldl
    (fun acc c => if existingCatKeys.contains (c.type, c.name) then acc
                  else putBy Category.id acc c) db.categories
  let existingAccNames := db.accounts.map (·.name)
  let accs := data.accounts.foldl
    (fun acc a => if existingAccNames.contains a.name then acc
                  else putBy Account.id acc a) db.accounts
  let existingTxIds := db.transactions.map (·.id)
  let txs := data.transactions.foldl
    (fun acc t => if existingTxIds.contains t.id then acc
                  else putBy Transaction.id acc t) db.transactions
  { db with transactions := txs, categories := cats, accounts := accs }

/-- A store with nothing in it. -/
def emptyDB : DB := { transactions := [], categories := [], accounts := [], settings := none }

/-! ## Store lemmas -/

theorem putBy_of_fresh {α κ : Type} [BEq κ] [LawfulBEq κ] (key : α → κ) (l : List α) (r : α)
    (h : ∀ x ∈ l, key x ≠ key r) : putBy key l r = l ++ [r] := by
  unfold putBy
  rw [if_neg]
  intro hc
  rw [List.any_eq_true] at hc
  obtain ⟨x, hx, hbeq⟩ := hc
  exact h x hx (by simpa using hbeq)

/-! ## Structure of the fixed-transaction generator -/

/-- The list of records created by the generator loop, with consecutive
fresh ids starting at `id`. -/
def cloneRecords (y m : Int) (id now : Nat) : List Transaction → List Transaction
  | [] => []
  | tx :: rest => mkTxRecord (fixedCloneDraft y m tx) id now :: cloneRecords y m (id + 1) now rest

/-- The clamp in `generateFixedTransactionsForMonth` places the clone on
the same day-of-month in target month `m` of year `y`, clamped to the last
day of that month. -/
theorem fixedCloneDate_spec (y m : Int) (orig : JSDate) (hm0 : 0 ≤ m) (hm : m ≤ 11)
    (hd1 : 1 ≤ orig.day) (hd31 : orig.day ≤ 31) :
    fixedCloneDate y m orig = ⟨y, m, min orig.day (monthLen y m)⟩ := by
  by_cases hle : orig.day ≤ monthLen y m
  · have hnd : normDate y m orig.day = ⟨y, m, orig.day⟩ := by
      rw [normDate_valid_month _ _ _ hm0 hm, if_neg (by omega), rollForward_stay _ _ _ hle]
    simp only [fixedCloneDate, hnd, ne_eq, not_true_eq_false, if_false, ite_not, if_pos rfl]
    rw [min_eq_left hle]
  · have hlen : monthLen y m < orig.day := by omega
    have hm11 : ¬ m = 11 := by
      intro hc; subst hc; rw [monthLen_11] at hlen; omega
    have hnext : monthLen y (m + 1) = 31 := by
      apply monthLen_next31; omega
    have hnd : normDate y m orig.day = ⟨y, m + 1, orig.day - monthLen y m⟩ := by
      rw [normDate_valid_month _ _ _ hm0 hm, if_neg (by omega),
        rollForward_roll _ _ _ hlen hm11,
        rollForward_stay _ _ _ (by have := monthLen_lb y m; omega)]
    have hd1eq : normDate y (m + 1) 0 = ⟨y, m, monthLen y m⟩ := by
      rw [normDate_valid_month _ _ _ (by omega) (by omega), if_pos (by omega),
        rollBackward_roll _ _ _ (by omega) (by omega),
        show m + 1 - 1 = m by ring,
        rollBackward_stay _ _ _ (by have := monthLen_lb y m; omega)]
      norm_num
    have hd2eq : normDate y (m + 1) (monthLen y m) = ⟨y, m + 1, monthLen y m⟩ := by
      rw [normDate_valid_month _ _ _ (by omega) (by omega),
        if_neg (by have := monthLen_lb y m; omega),
        rollForward_stay _ _ _ (by omega)]
    simp only [fixedCloneDate, setDateJS, setMonthJS, hnd, ne_eq]
    rw [if_pos (by intro hc; omega)]
    simp only [hd1eq, hd2eq]
    rw [min_eq_right (by omega)]

theorem markMonth_frame (y m : Int) (s : AppState) :
    (markMonthAsProcessed y m s).db.transactions = s.db.transactions ∧
    (markMonthAsProcessed y m s).db.categories = s.db.categories ∧
    (markMonthAsProcessed y m s).db.accounts = s.db.accounts ∧
    (markMonthAsProcessed y m s).nextId = s.nextId ∧
    (markMonthAsProcessed y m s).now = s.now := by
  unfold markMonthAsProcessed
  cases s.db.settings with
  | none => simp
  | some st => by_cases hc : getMonthKey y m ∈ st.processedFixedMonths <;> simp [hc]

theorem markMonth_settings_none (y m : Int) (s : AppState) (h : s.db.settings = none) :
    markMonthAsProcessed y m s = s := by
  unfold markMonthAsProcessed; rw [h]

theorem markMonth_settings_some (y m : Int) (s : AppState) (st : UserSettings)
    (h : s.db.settings = some st)
    (hn : st.processedFixedMonths.contains (getMonthKey y m) = false) :
    (markMonthAsProcessed y m s).db.settings =
      some { st with
        processedFixedMonths := st.processedFixedMonths ++ [getMonthKey y m]
        updatedAt := s.now } := by
  have hn' : getMonthKey y m ∉ st.processedFixedMonths := by simpa using hn
  unfold markMonthAsProcessed; rw [h]; simp [hn']

theorem isMonthProcessed_markMonth (y m : Int) (s : AppState) (h : s.db.settings.isSome) :
    isMonthProcessed y m (markMonthAsProcessed y m s).db = true := by
  obtain ⟨st, hst⟩ := Option.isSome_iff_exists.mp h
  by_cases hc : st.processedFixedMonths.contains (getMonthKey y m)
  · unfold markMonthAsProcessed
    rw [hst]
    simp only [hc, if_true]
    unfold isMonthProcessed
    rw [hst]
    exact hc
  · rw [isMonthProcessed,
      markMonth_settings_some y m s st hst (Bool.not_eq_true _ ▸ hc)]
    simp

/-- The state after `addTransaction` on a store whose ids are all below
the fresh-id counter: the new record is appended. -/
theorem addTransaction_state (draft : TxDraft) (s : AppState)
    (hfresh : ∀ tx ∈ s.db.transactions, tx.id < s.nextId) :
    (addTransaction draft s).2 = { s with
      nextId := s.nextId + 1
      db := { s.db with
        transactions := s.db.transactions ++ [mkTxRecord draft s.nextId s.now] } } := by
  unfold addTransaction
  simp only
  have hput : putBy Transaction.id s.db.transactions (mkTxRecord draft s.nextId s.now) =
      s.db.transactions ++ [mkTxRecord draft s.nextId s.now] := by
    apply putBy_of_fresh
    intro x hx
    have := hfresh x hx
    simp only [mkTxRecord]
    omega
  rw [hput]

theorem addTransaction_fst (draft : TxDraft) (s : AppState) :
    (addTransaction draft s).1 = mkTxRecord draft s.nextId s.now := rfl

theorem generateFixedLoop_cons (y m : Int) (tx : Transaction) (rest : List Transaction)
    (s : AppState) :
    generateFixedLoop y m (tx :: rest) s =
      ((generateFixedLoop y m rest (addTransaction (fixedCloneDraft y m tx) s).2).1 + 1,
       (generateFixedLoop y m rest (addTransaction (fixedCloneDraft y m tx) s).2).2) := rfl

theorem generateFixedLoop_spec (y m : Int) : ∀ (l : List Transaction) (s : AppState),
    (∀ tx ∈ s.db.transactions, tx.id < s.nextId) →
    (generateFixedLoop y m l s).1 = l.length ∧
    (generateFixedLoop y m l s).2.db.transactions =
      s.db.transactions ++ cloneRecords y m s.nextId s.now l ∧
    (generateFixedLoop y m l s).2.db.settings = s.db.settings ∧
    (generateFixedLoop y m l s).2.db.categories = s.db.categories ∧
    (generateFixedLoop y m l s).2.db.accounts = s.db.accounts ∧
    (generateFixedLoop y m l s).2.nextId = s.nextId + l.length ∧
    (generateFixedLoop y m l s).2.now = s.now ∧
    (∀ tx ∈ (generateFixedLoop y m l s).2.db.transactions,
      tx.id < (generateFixedLoop y m l s).2.nextId) := by
  intro l
  induction l with
  | nil =>
    intro s hfresh
    simp [generateFixedLoop, cloneRecords]
    exact hfresh
  | cons tx rest ih =>
    intro s hfresh
    have hfresh1 : ∀ u ∈ s.db.transactions ++ [mkTxRecord (fixedCloneDraft y m tx) s.nextId s.now],
        u.id < s.nextId + 1 := by
      intro u hu
      rcases List.mem_append.mp hu with h1 | h1
      · have := hfresh u h1; omega
      · rw [List.mem_singleton.mp h1]; simp [mkTxRecord]
    obtain ⟨c1, c2, c3, c4, c5, c6, c7, c8⟩ := ih
      { s with
        nextId := s.nextId + 1
        db := { s.db with
          transactions := s.db.transactions ++ [mkTxRecord (fixedCloneDraft y m tx) s.nextId s.now] } }
      hfresh1
    rw [generateFixedLoop_cons, addTransaction_state _ _ hfresh]
    refine ⟨?_, ?_, ?_, ?_, ?_, ?_, ?_, ?_⟩
    · simpa using c1
    · rw [c2]; simp [cloneRecords, List.append_assoc]
    · simpa using c3
    · simpa using c4
    · simpa using c5
    · rw [c6]; simp; omega
    · simpa using c7
    · intro u hu
      exact c8 u hu

theorem generateFixedLoop_settings (y m : Int) : ∀ (l : List Transaction) (s : AppState),
    (generateFixedLoop y m l s).2.db.settings = s.db.settings := by
  intro l
  induction l with
  | nil => intro s; rfl
  | cons tx rest ih =>
    intro s
    rw [generateFixedLoop_cons]
    exact ih _

/-- After any `generateFixedTransactionsForMonth` call on a state whose
settings record exists, the month is recorded as processed. -/
theorem isMonthProcessed_after_generate (y m : Int) (s : AppState)
    (h : s.db.settings.isSome) :
    isMonthProcessed y m (generateFixedTransactionsForMonth y m s).2.db = true := by
  by_cases hp : isMonthProcessed y m s.db
  · simp only [generateFixedTransactionsForMonth, hp, if_true]
  · simp only [generateFixedTransactionsForMonth, hp, Bool.false_eq_true, if_false]
    by_cases he : ((getTransactionsByMonth (prevMonthOf y m).1 (prevMonthOf y m).2 s.db).filter
        (·.isFixed)).isEmpty
    · simp only [he, if_true]
      exact isMonthProcessed_markMonth y m s h
    · simp only [he, Bool.false_eq_true, if_false]
      apply isMonthProcessed_markMonth
      rw [Option.isSome_iff_exists] at h ⊢
      obtain ⟨st, hst⟩ := h
      exact ⟨st, by rw [generateFixedLoop_settings]; exact hst⟩

/-- Full decomposition of `generateFixedTransactionsForMonth` on a month
that is not yet processed: the previous month's fixed transactions are
cloned in order with consecutive fresh ids, the other collections are
untouched, and the month key is appended to the ledger (when the settings
record exists). -/
theorem generateFixed_unprocessed (y m : Int) (s : AppState)
    (hfresh : ∀ tx ∈ s.db.transactions, tx.id < s.nextId)
    (hnp : isMonthProcessed y m s.db = false) :
    (generateFixedTransactionsForMonth y m s).1 =
      ((getTransactionsByMonth (prevMonthOf y m).1 (prevMonthOf y m).2 s.db).filter
        (·.isFixed)).length ∧
    (generateFixedTransactionsForMonth y m s).2.db.transactions =
      s.db.transactions ++ cloneRecords y m s.nextId s.now
        ((getTransactionsByMonth (prevMonthOf y m).1 (prevMonthOf y m).2 s.db).filter
          (·.isFixed)) ∧
    (generateFixedTransactionsForMonth y m s).2.db.categories = s.db.categories ∧
    (generateFixedTransactionsForMonth y m s).2.db.accounts = s.db.accounts ∧
    (generateFixedTransactionsForMonth y m s).2.nextId = s.nextId +
      ((getTransactionsByMonth (prevMonthOf y m).1 (prevMonthOf y m).2 s.db).filter
        (·.isFixed)).length ∧
    (generateFixedTransactionsForMonth y m s).2.now = s.now ∧
    (∀ tx ∈ (generateFixedTransactionsForMonth y m s).2.db.transactions,
      tx.id < (generateFixedTransactionsForMonth y m s).2.nextId) ∧
    (generateFixedTransactionsForMonth y m s).2.db.settings =
      (match s.db.settings with
       | none => none
       | some st => some { st with
           processedFixedMonths := st.processedFixedMonths ++ [getMonthKey y m]
           updatedAt := s.now }) := by
  have hsett : (markMonthAsProcessed y m s).db.settings =
      (match s.db.settings with
       | none => none
       | some st => some { st with
           processedFixedMonths := st.processedFixedMonths ++ [getMonthKey y m]
           updatedAt := s.now }) := by
    cases hset : s.db.settings with
    | none => rw [markMonth_settings_none y m s hset, hset]
    | some st =>
      rw [markMonth_settings_some y m s st hset (by
        unfold isMonthProcessed at hnp
        rw [hset] at hnp
        exact hnp)]
  simp only [generateFixedTransactionsForMonth, hnp, Bool.false_eq_true, if_false]
  by_cases he : ((getTransactionsByMonth (prevMonthOf y m).1 (prevMonthOf y m).2 s.db).filter
      (·.isFixed)).isEmpty
  · have heq : ((getTransactionsByMonth (prevMonthOf y m).1 (prevMonthOf y m).2 s.db).filter
        (·.isFixed)) = [] := List.isEmpty_iff.mp he
    obtain ⟨f1, f2, f3, f4, f5⟩ := markMonth_frame y m s
    rw [heq]
    refine ⟨rfl, ?_, ?_, ?_, ?_, ?_, ?_, ?_⟩
    · show (markMonthAsProcessed y m s).db.transactions =
        s.db.transactions ++ cloneRecords y m s.nextId s.now []
      rw [f1]; simp [cloneRecords]
    · exact f2
    · exact f3
    · show (markMonthAsProcessed y m s).nextId = s.nextId + ([] : List Transaction).length
      rw [f4]; simp
    · exact f5
    · show ∀ tx ∈ (markMonthAsProcessed y m s).db.transactions,
        tx.id < (markMonthAsProcessed y m s).nextId
      rw [f1, f4]
      exact hfresh
    · exact hsett
  · obtain ⟨c1, c2, c3, c4, c5, c6, c7, c8⟩ := generateFixedLoop_spec y m
      ((getTransactionsByMonth (prevMonthOf y m).1 (prevMonthOf y m).2 s.db).filter
        (·.isFixed)) s hfresh
    obtain ⟨f1, f2, f3, f4, f5⟩ := markMonth_frame y m
      (generateFixedLoop y m ((getTransactionsByMonth (prevMonthOf y m).1
        (prevMonthOf y m).2 s.db).filter (·.isFixed)) s).2
    simp only [he, Bool.false_eq_true, if_false]
    refine ⟨c1, ?_, ?_, ?_, ?_, ?_, ?_, ?_⟩
    · rw [f1]; exact c2
    · rw [f2]; exact c4
    · rw [f3]; exact c5
    · rw [f4]; exact c6
    · rw [f5]; exact c7
    · rw [f1, f4]; exact c8
    · have hsett2 : (markMonthAsProcessed y m (generateFixedLoop y m
          ((getTransactionsByMonth (prevMonthOf y m).1 (prevMonthOf y m).2 s.db).filter
            (·.isFixed)) s).2).db.settings =
          (match s.db.settings with
           | none => none
           | some st => some { st with
               processedFixedMonths := st.processedFixedMonths ++ [getMonthKey y m]
               updatedAt := s.now }) := by
        cases hset : s.db.settings with
        | none =>
          rw [markMonth_settings_none y m _ (by rw [generateFixedLoop_settings]; exact hset)]
          rw [generateFixedLoop_settings, hset]
        | some st =>
          rw [markMonth_settings_some y m _ st (by rw [generateFixedLoop_settings]; exact hset)
            (by
              unfold isMonthProcessed at hnp
              rw [hset] at hnp
              exact hnp), c7]
      exact hsett2

theorem cloneRecords_length (y m : Int) (now : Nat) :
    ∀ (l : List Transaction) (id : Nat), (cloneRecords y m id now l).length = l.length := by
  intro l
  induction l with
  | nil => intro id; rfl
  | cons tx rest ih => intro id; simp [cloneRecords, ih]

theorem cloneRecords_date (y m : Int) (now : Nat) (hm0 : 0 ≤ m) (hm : m ≤ 11) :
    ∀ (l : List Transaction) (id : Nat), (∀ tx ∈ l, ValidDate tx.date) →
    ∀ c ∈ cloneRecords y m id now l, c.date.year = y ∧ c.date.month = m := by
  intro l
  induction l with
  | nil => intro id _ c hc; simp [cloneRecords] at hc
  | cons tx rest ih =>
    intro id hv c hc
    rw [cloneRecords] at hc
    rcases List.mem_cons.mp hc with hc | hc
    · obtain ⟨v1, v2, v3, v4⟩ := hv tx (by simp)
      have hdt := fixedCloneDate_spec y m tx.date hm0 hm v3 (le_trans v4 (monthLen_ub _ _))
      subst hc
      constructor
      · show (mkTxRecord (fixedCloneDraft y m tx) id now).date.year = y
        simp [mkTxRecord, fixedCloneDraft, hdt]
      · show (mkTxRecord (fixedCloneDraft y m tx) id now).date.month = m
        simp [mkTxRecord, fixedCloneDraft, hdt]
    · exact ih (id + 1) (fun u hu => hv u (by simp [hu])) c hc

/-! ## Concrete fixtures used by the witnesses -/

def sampleSettings : UserSettings :=
  { name := "", email := "", notes := "", biometricsEnabled := false,
    accentColor := "#8B5CF6", theme := "auto", dateFormat := "auto",
    language := "en", defaultCurrency := "USD", firstLaunchLang := "en",
    processedFixedMonths := [], createdAt := 0, updatedAt := 0 }

/-- A fixed (template) expense dated 2024-01-31, completed. -/
def sampleFixedTx : Transaction :=
  { id := 1, type := .expense, value := 500, currency := "USD",
    description := "rent", categoryId := 3, accountId := 4,
    date := ⟨2024, 0, 31⟩, isCompleted := true, completedAt := some 2,
    isFixed := true, isRepeating := false, repeatConfig := none,
    repeatIndex := none, repeatTotal := none, parentRepeatId := none,
    observation := "", tags := ["home"], createdAt := 1, updatedAt := 1 }

/-- A store holding the January 2024 fixed expense, with settings present. -/
def sampleState : AppState :=
  { db := { transactions := [sampleFixedTx], categories := [], accounts := [],
            settings := some sampleSettings },
    nextId := 10, now := 99 }

/-- A fixed transaction dated December 2023 and a settings-less store. -/
def decemberTx : Transaction := { sampleFixedTx with id := 7, date := ⟨2023, 11, 15⟩ }

def noSettingsState : AppState :=
  { db := { transactions := [decemberTx], categories := [], accounts := [],
            settings := none },
    nextId := 10, now := 99 }

def decemberState : AppState :=
  { db := { transactions := [decemberTx], categories := [], accounts := [],
            settings := some sampleSettings },
    nextId := 10, now := 99 }

/-! ## The claims -/

/-- **C1** (idempotent monthly generation): when the settings record
exists, a second `generateFixedTransactionsForMonth(y,m)` call right after
a first one returns 0 and leaves the whole state unchanged — in
particular it creates no transactions, because the first call recorded the
`(y,m)` key in `processedFixedMonths` and step 1 short-circuits. -/
theorem generateFixed_idempotent (y m : Int) (s : AppState)
    (h : s.db.settings.isSome) :
    (generateFixedTransactionsForMonth y m (generateFixedTransactionsForMonth y m s).2).1 = 0 ∧
    (generateFixedTransactionsForMonth y m (generateFixedTransactionsForMonth y m s).2).2 =
      (generateFixedTransactionsForMonth y m s).2 := by
  have hp := isMonthProcessed_after_generate y m s h
  set s1 := (generateFixedTransactionsForMonth y m s).2 with hs1
  constructor <;> simp only [generateFixedTransactionsForMonth, hp, if_true]

/-- Witness for C1: the 2024-02 generation over the sample store. -/
theorem generateFixed_idempotent_witness :
    (generateFixedTransactionsForMonth 2024 1
      (generateFixedTransactionsForMonth 2024 1 sampleState).2).1 = 0 ∧
    (generateFixedTransactionsForMonth 2024 1
      (generateFixedTransactionsForMonth 2024 1 sampleState).2).2 =
      (generateFixedTransactionsForMonth 2024 1 sampleState).2 :=
  generateFixed_idempotent 2024 1 sampleState (by decide)

/-- **C6** (previous-month sourcing and clone payload): the generator
reads the fixed transactions of the previous calendar month — for January
(`m = 0`) that is month 11 of year `y - 1` — and clones each of them into
the target month with the same payload fields, `isFixed = true`,
`isRepeating = false` and `isCompleted = false`. -/
theorem generateFixed_sources_prev_month (y m : Int) (s : AppState)
    (hfresh : ∀ tx ∈ s.db.transactions, tx.id < s.nextId)
    (hnp : isMonthProcessed y m s.db = false) :
    (m = 0 → prevMonthOf y m = (y - 1, 11)) ∧
    (1 ≤ m → prevMonthOf y m = (y, m - 1)) ∧
    (generateFixedTransactionsForMonth y m s).2.db.transactions =
      s.db.transactions ++ cloneRecords y m s.nextId s.now
        ((getTransactionsByMonth (prevMonthOf y m).1 (prevMonthOf y m).2 s.db).filter
          (·.isFixed)) ∧
    (generateFixedTransactionsForMonth y m s).1 =
      ((getTransactionsByMonth (prevMonthOf y m).1 (prevMonthOf y m).2 s.db).filter
        (·.isFixed)).length ∧
    (∀ (tx : Transaction) (id now : Nat),
      (mkTxRecord (fixedCloneDraft y m tx) id now).type = tx.type ∧
      (mkTxRecord (fixedCloneDraft y m tx) id now).value = tx.value ∧
      (mkTxRecord (fixedCloneDraft y m tx) id now).currency = tx.currency ∧
      (mkTxRecord (fixedCloneDraft y m tx) id now).description = tx.description ∧
      (mkTxRecord (fixedCloneDraft y m tx) id now).categoryId = tx.categoryId ∧
      (mkTxRecord (fixedCloneDraft y m tx) id now).accountId = tx.accountId ∧
      (mkTxRecord (fixedCloneDraft y m tx) id now).observation = tx.observation ∧
      (mkTxRecord (fixedCloneDraft y m tx) id now).tags = tx.tags ∧
      (mkTxRecord (fixedCloneDraft y m tx) id now).isFixed = true ∧
      (mkTxRecord (fixedCloneDraft y m tx) id now).isRepeating = false ∧
      (mkTxRecord (fixedCloneDraft y m tx) id now).isCompleted = false) := by
  obtain ⟨c1, c2, _, _, _, _, _, _⟩ := generateFixed_unprocessed y m s hfresh hnp
  refine ⟨?_, ?_, c2, c1, ?_⟩
  · intro h0; unfold prevMonthOf; rw [if_pos (by omega)]
  · intro h1; unfold prevMonthOf; rw [if_neg (by omega)]
  · intro tx id now
    exact ⟨rfl, rfl, rfl, rfl, rfl, rfl, rfl, rfl, rfl, rfl, rfl⟩

/-- Witness for C6: `generateFixedTransactionsForMonth(2024, 0)` sources
December 2023, not month -1. -/
theorem generateFixed_sources_prev_month_witness :
    (prevMonthOf 2024 0 = (2023, 11)) ∧
    (generateFixedTransactionsForMonth 2024 0 decemberState).2.db.transactions =
      decemberState.db.transactions ++ cloneRecords 2024 0 10 99
        ((getTransactionsByMonth 2023 11 decemberState.db).filter (·.isFixed)) := by
  have h := generateFixed_sources_prev_month 2024 0 decemberState (by decide) (by decide)
  exact ⟨by simpa using h.1 rfl, h.2.2.1⟩

/-- **C5** (clone-date clamping): every clone the generator creates for a
valid previous-month fixed transaction carries the same day-of-month
placed in target month `m` of year `y`, clamped to the last day of that
month when the day does not exist there; the clone never leaves month `m`. -/
theorem generateFixed_clone_date_clamped (y m : Int) (s : AppState)
    (hm0 : 0 ≤ m) (hm : m ≤ 11)
    (hfresh : ∀ tx ∈ s.db.transactions, tx.id < s.nextId)
    (hnp : isMonthProcessed y m s.db = false)
    (hvalid : ∀ tx ∈ s.db.transactions, ValidDate tx.date) :
    (generateFixedTransactionsForMonth y m s).2.db.transactions =
      s.db.transactions ++ cloneRecords y m s.nextId s.now
        ((getTransactionsByMonth (prevMonthOf y m).1 (prevMonthOf y m).2 s.db).filter
          (·.isFixed)) ∧
    (∀ tx ∈ (getTransactionsByMonth (prevMonthOf y m).1 (prevMonthOf y m).2 s.db).filter
        (·.isFixed),
      (fixedCloneDraft y m tx).date = ⟨y, m, min tx.date.day (monthLen y m)⟩) := by
  obtain ⟨_, c2, _, _, _, _, _, _⟩ := generateFixed_unprocessed y m s hfresh hnp
  refine ⟨c2, ?_⟩
  intro tx htx
  have hmem : tx ∈ s.db.transactions := by
    have h1 := List.mem_filter.mp htx
    have h2 := List.mem_filter.mp h1.1
    exact h2.1
  obtain ⟨v1, v2, v3, v4⟩ := hvalid tx hmem
  show fixedCloneDate y m tx.date = _
  exact fixedCloneDate_spec y m tx.date hm0 hm v3 (le_trans v4 (monthLen_ub _ _))

/-- Witness for C5: the 2024-01-31 fixed expense regenerated for February
2024 is dated 2024-02-29, never a date in March. -/
theorem generateFixed_clone_date_clamped_witness :
    (fixedCloneDraft 2024 1 sampleFixedTx).date = ⟨2024, 1, 29⟩ := by
  have h := generateFixed_clone_date_clamped 2024 1 sampleState (by decide) (by decide)
    (by decide) (by decide) (by decide)
  have h2 := h.2 sampleFixedTx (by decide)
  rw [h2]
  decide

theorem prevMonthOf_ne (y m : Int) :
    ¬((prevMonthOf y m).1 = y ∧ (prevMonthOf y m).2 = m) := by
  unfold prevMonthOf
  split_ifs with h <;> rintro ⟨h1, h2⟩ <;> simp at h1 h2

theorem clones_filter_month_nil (y m p1 p2 : Int) (now : Nat) (hm0 : 0 ≤ m) (hm : m ≤ 11)
    (hne : ¬(p1 = y ∧ p2 = m)) (l : List Transaction) (id : Nat)
    (hv : ∀ tx ∈ l, ValidDate tx.date) :
    (cloneRecords y m id now l).filter
      (fun tx => tx.date.year == p1 && tx.date.month == p2) = [] := by
  rw [List.filter_eq_nil_iff]
  intro c hc
  obtain ⟨hy, hmm⟩ := cloneRecords_date y m now hm0 hm l id hv c hc
  simp only [hy, hmm, Bool.and_eq_true, beq_iff_eq, not_and]
  intro h1 h2
  exact hne ⟨h1.symm, h2.symm⟩

/-- **C10** (missing settings breaks the idempotency ledger): when the
singleton settings record is absent, `generateFixedTransactionsForMonth`
still clones the previous month's fixed transactions, but
`markMonthAsProcessed` silently does nothing, so the settings stay absent
and an immediate second call for the same `(y, m)` creates the same number
of clones again, duplicating them. -/
theorem generateFixed_duplicates_without_settings (y m : Int) (s : AppState)
    (hm0 : 0 ≤ m) (hm : m ≤ 11)
    (hset : s.db.settings = none)
    (hfresh : ∀ tx ∈ s.db.transactions, tx.id < s.nextId)
    (hvalid : ∀ tx ∈ s.db.transactions, ValidDate tx.date)
    (hne : ((getTransactionsByMonth (prevMonthOf y m).1 (prevMonthOf y m).2 s.db).filter
      (·.isFixed)) ≠ []) :
    0 < (generateFixedTransactionsForMonth y m s).1 ∧
    (generateFixedTransactionsForMonth y m s).2.db.settings = none ∧
    (generateFixedTransactionsForMonth y m
      (generateFixedTransactionsForMonth y m s).2).1 =
      (generateFixedTransactionsForMonth y m s).1 ∧
    (generateFixedTransactionsForMonth y m
      (generateFixedTransactionsForMonth y m s).2).2.db.transactions.length =
      s.db.transactions.length +
        2 * ((getTransactionsByMonth (prevMonthOf y m).1 (prevMonthOf y m).2 s.db).filter
          (·.isFixed)).length := by
  have hnp : isMonthProcessed y m s.db = false := by
    unfold isMonthProcessed; rw [hset]
  obtain ⟨c1, c2, c3, c4, c5, c6, c7, c8⟩ := generateFixed_unprocessed y m s hfresh hnp
  have hset1 : (generateFixedTransactionsForMonth y m s).2.db.settings = none := by
    rw [c8, hset]
  have hnp1 : isMonthProcessed y m (generateFixedTransactionsForMonth y m s).2.db = false := by
    unfold isMonthProcessed; rw [hset1]
  obtain ⟨d1, d2, _, _, _, _, _, _⟩ :=
    generateFixed_unprocessed y m (generateFixedTransactionsForMonth y m s).2 c7 hnp1
  have hvfilter : ∀ tx ∈ (getTransactionsByMonth (prevMonthOf y m).1 (prevMonthOf y m).2
      s.db).filter (·.isFixed), ValidDate tx.date := by
    intro tx htx
    have h1 := List.mem_filter.mp htx
    have h2 := List.mem_filter.mp h1.1
    exact hvalid tx h2.1
  have hprev : (getTransactionsByMonth (prevMonthOf y m).1 (prevMonthOf y m).2
        (generateFixedTransactionsForMonth y m s).2.db).filter (·.isFixed) =
      (getTransactionsByMonth (prevMonthOf y m).1 (prevMonthOf y m).2 s.db).filter
        (·.isFixed) := by
    unfold getTransactionsByMonth
    rw [c2, List.filter_append,
      clones_filter_month_nil y m (prevMonthOf y m).1 (prevMonthOf y m).2 s.now hm0 hm
        (prevMonthOf_ne y m) _ s.nextId hvfilter,
      List.append_nil]
  refine ⟨?_, hset1, ?_, ?_⟩
  · rw [c1]
    exact List.length_pos.mpr hne
  · rw [d1, hprev, c1]
  · rw [d2, hprev, List.length_append, cloneRecords_length, c2, List.length_append,
      cloneRecords_length]
    ring

/-- Witness for C10: a December 2023 fixed transaction in a settings-less
store; generating January 2024 twice duplicates its clone. -/
theorem generateFixed_duplicates_without_settings_witness :
    0 < (generateFixedTransactionsForMonth 2024 0 noSettingsState).1 ∧
    (generateFixedTransactionsForMonth 2024 0 noSettingsState).2.db.settings = none ∧
    (generateFixedTransactionsForMonth 2024 0
      (generateFixedTransactionsForMonth 2024 0 noSettingsState).2).1 =
      (generateFixedTransactionsForMonth 2024 0 noSettingsState).1 ∧
    (generateFixedTransactionsForMonth 2024 0
      (generateFixedTransactionsForMonth 2024 0 noSettingsState).2).2.db.transactions.length =
      noSettingsState.db.transactions.length +
        2 * ((getTransactionsByMonth (prevMonthOf 2024 0).1 (prevMonthOf 2024 0).2
          noSettingsState.db).filter (·.isFixed)).length :=
  generateFixed_duplicates_without_settings 2024 0 noSettingsState (by decide) (by decide)
    (by decide) (by decide) (by decide) (by decide)

/-! ## Structure of `addRecurringTransaction` -/

/-- The records created by the installment loop, with consecutive fresh
ids starting at `id` and loop index starting at `i`. -/
def instRecords (draft : TxDraft) (cfg : RepeatConfig) (pid now : Nat) :
    Nat → Nat → Nat → List Transaction
  | _, 0, _ => []
  | i, r + 1, id =>
    mkInstallment draft cfg pid now i id :: instRecords draft cfg pid now (i + 1) r (id + 1)

theorem addInstallmentsLoop_records (draft : TxDraft) (cfg : RepeatConfig) (pid now : Nat) :
    ∀ (r i : Nat) (s : AppState),
    (addInstallmentsLoop draft cfg pid now i r s).1 =
      instRecords draft cfg pid now i r s.nextId := by
  intro r
  induction r with
  | zero => intro i s; rfl
  | succ r ih =>
    intro i s
    rw [addInstallmentsLoop, instRecords]
    simp only [List.cons.injEq, true_and]
    exact ih (i + 1) _

theorem instRecords_length (draft : TxDraft) (cfg : RepeatConfig) (pid now : Nat) :
    ∀ (r i id : Nat), (instRecords draft cfg pid now i r id).length = r := by
  intro r
  induction r with
  | zero => intro i id; rfl
  | succ r ih => intro i id; rw [instRecords]; simp [ih]

theorem instRecords_mem (draft : TxDraft) (cfg : RepeatConfig) (pid now : Nat) :
    ∀ (r i id : Nat), ∀ t ∈ instRecords draft cfg pid now i r id,
    t.parentRepeatId = some pid ∧ t.repeatTotal = some cfg.times := by
  intro r
  induction r with
  | zero => intro i id t ht; simp [instRecords] at ht
  | succ r ih =>
    intro i id t ht
    rw [instRecords] at ht
    rcases List.mem_cons.mp ht with ht | ht
    · subst ht; exact ⟨rfl, rfl⟩
    · exact ih (i + 1) (id + 1) t ht

theorem instRecords_map_repeatIndex (draft : TxDraft) (cfg : RepeatConfig) (pid now : Nat) :
    ∀ (r i id : Nat), (instRecords draft cfg pid now i r id).map (·.repeatIndex) =
      (List.range r).map (fun j => some (i + j + 1)) := by
  intro r
  induction r with
  | zero => intro i id; rfl
  | succ r ih =>
    intro i id
    rw [instRecords, List.map_cons, ih (i + 1) (id + 1), List.range_succ_eq_map,
      List.map_cons, List.map_map]
    congr 1
    apply List.map_congr_left
    intro j hj
    simp only [Function.comp_apply]
    congr 1
    omega

theorem instRecords_map_date (draft : TxDraft) (cfg : RepeatConfig) (pid now : Nat) :
    ∀ (r i id : Nat), (instRecords draft cfg pid now i r id).map (·.date) =
      (List.range r).map
        (fun j => installmentDate cfg.period cfg.customDays draft.date (i + j)) := by
  intro r
  induction r with
  | zero => intro i id; rfl
  | succ r ih =>
    intro i id
    rw [instRecords, List.map_cons, ih (i + 1) (id + 1), List.range_succ_eq_map,
      List.map_cons, List.map_map]
    congr 1
    apply List.map_congr_left
    intro j hj
    simp only [Function.comp_apply]
    congr 1
    omega

theorem addInstallmentsLoop_state (draft : TxDraft) (cfg : RepeatConfig) (pid now : Nat) :
    ∀ (r i : Nat) (s : AppState),
    (∀ tx ∈ s.db.transactions, tx.id < s.nextId) →
    (addInstallmentsLoop draft cfg pid now i r s).2.db.transactions =
      s.db.transactions ++ (addInstallmentsLoop draft cfg pid now i r s).1 := by
  intro r
  induction r with
  | zero => intro i s _; simp [addInstallmentsLoop]
  | succ r ih =>
    intro i s hfresh
    rw [addInstallmentsLoop]
    simp only
    have hput : putBy Transaction.id s.db.transactions
        (mkInstallment draft cfg pid now i s.nextId) =
        s.db.transactions ++ [mkInstallment draft cfg pid now i s.nextId] := by
      apply putBy_of_fresh
      intro x hx
      have := hfresh x hx
      simp only [mkInstallment, mkTxRecord]
      omega
    rw [hput]
    rw [ih (i + 1)
      { s with
        nextId := s.nextId + 1
        db := { s.db with transactions := s.db.transactions ++ [mkInstallment draft cfg pid now i s.nextId] } }
      (by
        intro u hu
        simp only at hu
        rcases List.mem_append.mp hu with h1 | h1
        · have := hfresh u h1; simp only; omega
        · rw [List.mem_singleton.mp h1]; simp [mkInstallment, mkTxRecord])]
    rw [List.append_assoc]
    rfl

theorem addRecurringTransaction_unfold (draft : TxDraft) (cfg : RepeatConfig) (s : AppState)
    (h1 : draft.isRepeating = true) (h2 : draft.repeatConfig = some cfg) :
    addRecurringTransaction draft s =
      addInstallmentsLoop draft cfg s.nextId s.now 0 cfg.times
        { s with nextId := s.nextId + 1 } := by
  unfold addRecurringTransaction
  rw [h1, h2]

/-- **C2** (installment count invariant): for a repeating draft with a
config of `times = n ≥ 1`, `addRecurringTransaction` returns exactly `n`
records, all sharing the one freshly drawn `parentRepeatId` (distinct from
every id already stored), with `repeatIndex` running 1..n in creation
order and `repeatTotal = n` on every record. -/
theorem addRecurringTransaction_installments (draft : TxDraft) (cfg : RepeatConfig)
    (s : AppState) (h1 : draft.isRepeating = true) (h2 : draft.repeatConfig = some cfg)
    (h3 : 1 ≤ cfg.times)
    (hfresh : ∀ tx ∈ s.db.transactions, tx.id < s.nextId) :
    (addRecurringTransaction draft s).1.length = cfg.times ∧
    (∀ t ∈ (addRecurringTransaction draft s).1,
      t.parentRepeatId = some s.nextId ∧ t.repeatTotal = some cfg.times) ∧
    (addRecurringTransaction draft s).1.map (·.repeatIndex) =
      (List.range cfg.times).map (fun j => some (j + 1)) ∧
    (addRecurringTransaction draft s).2.db.transactions =
      s.db.transactions ++ (addRecurringTransaction draft s).1 ∧
    (∀ tx ∈ s.db.transactions, tx.id ≠ s.nextId) := by
  rw [addRecurringTransaction_unfold draft cfg s h1 h2, addInstallmentsLoop_records]
  refine ⟨instRecords_length draft cfg s.nextId s.now cfg.times 0 _,
    instRecords_mem draft cfg s.nextId s.now cfg.times 0 _, ?_, ?_, ?_⟩
  · rw [instRecords_map_repeatIndex]
    apply List.map_congr_left
    intro j hj
    congr 1
    omega
  · rw [← addInstallmentsLoop_records]
    exact addInstallmentsLoop_state draft cfg s.nextId s.now cfg.times 0 _
      (by
        intro u hu
        simp only at hu
        have := hfresh u hu
        simp only
        omega)
  · intro tx htx
    have := hfresh tx htx
    omega

/-- A non-repeating recurring draft used by the C2 witness. -/
def sampleRecurringDraft : TxDraft :=
  { type := .expense, value := 120, currency := "USD", description := "tv",
    categoryId := 3, accountId := 4, date := ⟨2024, 0, 15⟩, isCompleted := false,
    completedAt := none, isFixed := false, isRepeating := true,
    repeatConfig := some { times := 6, period := .monthly, customDays := none },
    repeatIndex := none, repeatTotal := none, parentRepeatId := none,
    observation := "", tags := [] }

/-- Witness for C2: six monthly installments over the sample store. -/
theorem addRecurringTransaction_installments_witness :
    (addRecurringTransaction sampleRecurringDraft sampleState).1.length = 6 ∧
    (∀ t ∈ (addRecurringTransaction sampleRecurringDraft sampleState).1,
      t.parentRepeatId = some 10 ∧ t.repeatTotal = some 6) ∧
    (addRecurringTransaction sampleRecurringDraft sampleState).1.map (·.repeatIndex) =
      (List.range 6).map (fun j => some (j + 1)) ∧
    (addRecurringTransaction sampleRecurringDraft sampleState).2.db.transactions =
      sampleState.db.transactions ++ (addRecurringTransaction sampleRecurringDraft sampleState).1 ∧
    (∀ tx ∈ sampleState.db.transactions, tx.id ≠ 10) :=
  addRecurringTransaction_installments sampleRecurringDraft
    { times := 6, period := .monthly, customDays := none } sampleState
    (by decide) (by decide) (by decide) (by decide)

/-- Specification-side period advance for installment `i` (0-indexed):
`daily` is the base date advanced by `i` civil days, `weekly` by `7·i`
days, `monthly` sets the month to `month + i` keeping the day-of-month
(unclamped calendar month arithmetic, so day overflow rolls forward),
`yearly` sets the year to `year + i`, and `custom` advances by
`i · customDays` days when `customDays` is present and nonzero, else by
`30·i` days (the code's `customDays || 30` fallback). -/
def specInstallmentDate (cfg : RepeatConfig) (base : JSDate) (i : Nat) : JSDate :=
  match cfg.period with
  | .daily => addDays base i
  | .weekly => addDays base (7 * i)
  | .monthly => setMonthJS base (base.month + (i : Int))
  | .yearly => setFullYearJS base (base.year + (i : Int))
  | .custom => addDays base (i * effCustomDays cfg.customDays)

theorem installmentDate_spec (cfg : RepeatConfig) (base : JSDate) (i : Nat)
    (hv : ValidDate base) :
    installmentDate cfg.period cfg.customDays base i = specInstallmentDate cfg base i := by
  obtain ⟨h1, h2, h3, h4⟩ := hv
  have hbase : normDate base.year base.month base.day = base :=
    normDate_id_of_valid base ⟨h1, h2, h3, h4⟩
  unfold installmentDate specInstallmentDate
  cases hp : cfg.period
  · show setDateJS base (base.day + (i : Int)) = addDays base i
    unfold setDateJS
    rw [normDate_addDays base.year base.month base.day h1 h2 h3 i, hbase]
  · show setDateJS base (base.day + (i : Int) * 7) = addDays base (7 * i)
    unfold setDateJS
    have hc : base.day + (i : Int) * 7 = base.day + ((7 * i : Nat) : Int) := by
      push_cast; ring
    rw [hc, normDate_addDays base.year base.month base.day h1 h2 h3 (7 * i), hbase]
  · rfl
  · rfl
  · show setDateJS base (base.day + (i : Int) * (effCustomDays cfg.customDays : Int)) =
      addDays base (i * effCustomDays cfg.customDays)
    unfold setDateJS
    have hc : base.day + (i : Int) * (effCustomDays cfg.customDays : Int) =
        base.day + ((i * effCustomDays cfg.customDays : Nat) : Int) := by
      push_cast; ring
    rw [hc, normDate_addDays base.year base.month base.day h1 h2 h3
      (i * effCustomDays cfg.customDays), hbase]

/-- **C7** (amended, installment dates): installment `i` of a repeating
draft with a valid base date is dated: `daily` → base + `i` days,
`weekly` → base + `7·i` days, `monthly` → month set to `month + i`
(unclamped, day overflow rolls forward), `yearly` → year set to
`year + i`, `custom` → base + `i · customDays` days when `customDays` is
present and nonzero, else base + `30·i` days. -/
theorem addRecurringTransaction_dates (draft : TxDraft) (cfg : RepeatConfig) (s : AppState)
    (h1 : draft.isRepeating = true) (h2 : draft.repeatConfig = some cfg)
    (hv : ValidDate draft.date) :
    (addRecurringTransaction draft s).1.map (·.date) =
      (List.range cfg.times).map (specInstallmentDate cfg draft.date) := by
  rw [addRecurringTransaction_unfold draft cfg s h1 h2, addInstallmentsLoop_records,
    instRecords_map_date]
  apply List.map_congr_left
  intro j hj
  rw [Nat.zero_add]
  exact installmentDate_spec cfg draft.date j hv

/-- Witness for C7: the six monthly installments of the sample draft. -/
theorem addRecurringTransaction_dates_witness :
    (addRecurringTransaction sampleRecurringDraft sampleState).1.map (·.date) =
      (List.range 6).map
        (specInstallmentDate { times := 6, period := .monthly, customDays := none }
          (⟨2024, 0, 15⟩ : JSDate)) :=
  addRecurringTransaction_dates sampleRecurringDraft
    { times := 6, period := .monthly, customDays := none } sampleState
    (by decide) (by decide) (by decide)

/-- A repeating draft with `period = custom` and `customDays = 0`. -/
def customZeroDraft : TxDraft :=
  { type := .expense, value := 9, currency := "USD", description := "sub",
    categoryId := 3, accountId := 4, date := ⟨2024, 0, 1⟩, isCompleted := false,
    completedAt := none, isFixed := false, isRepeating := true,
    repeatConfig := some { times := 2, period := .custom, customDays := some 0 },
    repeatIndex := none, repeatTotal := none, parentRepeatId := none,
    observation := "", tags := [] }

/-- Counterexample to C7 as stated: with `customDays = 0`, installment 1
is dated base + 30 days (2024-01-31), not base + 1·0 days (2024-01-01) —
the code substitutes 30 for a falsy `customDays`. -/
theorem addRecurringTransaction_dates_cex :
    (addRecurringTransaction customZeroDraft sampleState).1.map (·.date) =
      [⟨2024, 0, 1⟩, ⟨2024, 0, 31⟩] ∧
    addDays (⟨2024, 0, 1⟩ : JSDate) (1 * 0) = ⟨2024, 0, 1⟩ ∧
    (⟨2024, 0, 31⟩ : JSDate) ≠ (⟨2024, 0, 1⟩ : JSDate) := by
  refine ⟨?_, rfl, by decide⟩
  simp [addRecurringTransaction, customZeroDraft, addInstallmentsLoop, mkInstallment,
    installmentDate, setDateJS, effCustomDays, normDate, rollForward, rollBackward,
    monthLen, isLeap]

/-! ## Association-map lemmas for the balance aggregation -/

theorem assocGet_append {κ β : Type} [BEq κ] (l1 l2 : List (κ × β)) (k : κ) :
    assocGet (l1 ++ l2) k =
      match assocGet l1 k with
      | some v => some v
      | none => assocGet l2 k := by
  induction l1 with
  | nil => rfl
  | cons p rest ih =>
    by_cases hp : p.1 == k <;> simp [assocGet, hp, ih]

theorem assocGet_map_set_self {κ β : Type} [BEq κ] [LawfulBEq κ] (l : List (κ × β))
    (k : κ) (v : β) (h : l.any (fun p => p.1 == k) = true) :
    assocGet (l.map (fun p => if p.1 == k then (k, v) else p)) k = some v := by
  induction l with
  | nil => simp at h
  | cons p rest ih =>
    by_cases hp : p.1 == k
    · simp [assocGet, hp]
    · rw [List.any_cons] at h
      simp only [hp, Bool.false_or] at h
      simp [assocGet, hp, ih h]

theorem assocGet_assocSet_self {κ β : Type} [BEq κ] [LawfulBEq κ] (l : List (κ × β))
    (k : κ) (v : β) : assocGet (assocSet l k v) k = some v := by
  unfold assocSet
  by_cases hany : l.any (fun p => p.1 == k) = true
  · rw [if_pos hany]
    exact assocGet_map_set_self l k v hany
  · rw [if_neg hany, assocGet_append]
    have hnone : assocGet l k = none := by
      induction l with
      | nil => rfl
      | cons p rest ih =>
        rw [List.any_cons] at hany
        by_cases hp : p.1 == k
        · exact absurd (by simp [hp]) hany
        · simp only [assocGet, hp, if_false]
          exact ih (by intro hc; exact hany (by simp [hc]))
    rw [hnone]
    simp [assocGet]

theorem assocGet_map_set_ne {κ β : Type} [BEq κ] [LawfulBEq κ] (l : List (κ × β))
    (k k' : κ) (v : β) (h : ¬ k' = k) :
    assocGet (l.map (fun p => if p.1 == k then (k, v) else p)) k' = assocGet l k' := by
  induction l with
  | nil => rfl
  | cons p rest ih =>
    by_cases hp : p.1 == k
    · have hpk : p.1 = k := by simpa using hp
      have hk : ¬ ((k : κ) == k') = true := by
        simp only [beq_iff_eq]
        intro hc
        exact h hc.symm
      have hp' : ¬ (p.1 == k') = true := by rw [hpk]; exact hk
      simp only [List.map_cons, if_pos hp, assocGet]
      rw [if_neg hk, if_neg hp']
      exact ih
    · simp only [List.map_cons, if_neg hp, assocGet, ih]

theorem assocGet_assocSet_ne {κ β : Type} [BEq κ] [LawfulBEq κ] (l : List (κ × β))
    (k k' : κ) (v : β) (h : ¬ k' = k) :
    assocGet (assocSet l k v) k' = assocGet l k' := by
  unfold assocSet
  split_ifs with hany
  · exact assocGet_map_set_ne l k k' v h
  · rw [assocGet_append]
    have hk : ¬ ((k : κ) == k') = true := by
      simp only [beq_iff_eq]
      intro hc
      exact h hc.symm
    simp only [assocGet, hk, if_false]
    cases assocGet l k' <;> rfl

/-- The signed contribution of a transaction to its balance bucket. -/
def signedValue (tx : Transaction) : Int :=
  match tx.type with
  | .income => tx.value
  | .expense => -tx.value

theorem assocGet_ensureAccount_self (bal : BalMap) (a : Nat) :
    assocGet (ensureAccount bal a) a = some ((assocGet bal a).getD []) := by
  unfold ensureAccount
  cases hacc : assocGet bal a with
  | none => rw [assocGet_append, hacc]; simp [assocGet]
  | some cur0 => rw [hacc]; rfl

theorem assocGet_ensureAccount_ne (bal : BalMap) (a a' : Nat) (h : ¬ a' = a) :
    assocGet (ensureAccount bal a) a' = assocGet bal a' := by
  unfold ensureAccount
  cases hacc : assocGet bal a with
  | none =>
    rw [assocGet_append]
    have hk : ¬ ((a : Nat) == a') = true := by
      simp only [beq_iff_eq]
      intro hc
      exact h hc.symm
    simp only [assocGet, hk, if_false]
    cases assocGet bal a' <;> rfl
  | some cur0 => rfl

theorem assocGet_ensureCurrency_self (cur : List (String × Int)) (c : String) :
    assocGet (ensureCurrency cur c) c = some ((assocGet cur c).getD 0) := by
  unfold ensureCurrency
  cases hcur : assocGet cur c with
  | none => rw [assocGet_assocSet_self]; rfl
  | some v =>
    show assocGet (if (v == 0) = true then assocSet cur c 0 else cur) c =
      some ((some v).getD 0)
    by_cases hv : (v == 0) = true
    · rw [if_pos hv, assocGet_assocSet_self]
      have hveq : v = 0 := by simpa using hv
      rw [hveq]
      rfl
    · rw [if_neg hv, hcur]
      rfl

theorem assocGet_ensureCurrency_ne (cur : List (String × Int)) (c c' : String)
    (h : ¬ c' = c) :
    assocGet (ensureCurrency cur c) c' = assocGet cur c' := by
  unfold ensureCurrency
  cases hcur : assocGet cur c with
  | none => rw [assocGet_assocSet_ne _ _ _ _ h]
  | some v =>
    show assocGet (if (v == 0) = true then assocSet cur c 0 else cur) c' = assocGet cur c'
    by_cases hv : (v == 0) = true
    · rw [if_pos hv, assocGet_assocSet_ne _ _ _ _ h]
    · rw [if_neg hv]

theorem assocGet_getD_lookupBalance (bal : BalMap) (a : Nat) (c : String) :
    assocGet ((assocGet bal a).getD []) c = lookupBalance bal a c := by
  unfold lookupBalance
  cases hacc : assocGet bal a with
  | none => rfl
  | some cur0 => rfl

theorem lookupBalance_balStep_same (bal : BalMap) (tx : Transaction)
    (h : tx.isCompleted = true) :
    lookupBalance (balStep bal tx) tx.accountId tx.currency =
      some ((lookupBalance bal tx.accountId tx.currency).getD 0 + signedValue tx) := by
  unfold balStep
  simp only [h, Bool.not_true, Bool.false_eq_true, if_false]
  rw [lookupBalance, assocGet_assocSet_self]
  simp only
  rw [assocGet_assocSet_self, assocGet_ensureCurrency_self, assocGet_ensureAccount_self]
  simp only [Option.getD_some]
  simp only [assocGet_getD_lookupBalance]
  cases htype : tx.type <;> simp [signedValue, htype, sub_eq_add_neg]

theorem lookupBalance_balStep_other (bal : BalMap) (tx : Transaction) (a : Nat) (c : String)
    (h : ¬(tx.isCompleted = true ∧ tx.accountId = a ∧ tx.currency = c)) :
    lookupBalance (balStep bal tx) a c = lookupBalance bal a c := by
  by_cases hcomp : tx.isCompleted = true
  · unfold balStep
    simp only [hcomp, Bool.not_true, Bool.false_eq_true, if_false]
    by_cases ha : tx.accountId = a
    · have hc : ¬ tx.currency = c := by tauto
      rw [lookupBalance, ha, assocGet_assocSet_self]
      simp only
      rw [assocGet_assocSet_ne _ _ _ _ (fun hcc => hc hcc.symm),
        assocGet_ensureCurrency_ne _ _ _ (fun hcc => hc hcc.symm),
        assocGet_ensureAccount_self, Option.getD_some, assocGet_getD_lookupBalance]
    · rw [lookupBalance,
        assocGet_assocSet_ne _ _ _ _ (fun haa => ha haa.symm),
        assocGet_ensureAccount_ne _ _ _ (fun haa => ha haa.symm), lookupBalance]
  · have hcomp' : tx.isCompleted = false := by
      cases hcc : tx.isCompleted
      · rfl
      · exact absurd hcc hcomp
    unfold balStep
    rw [hcomp']
    rfl

/-- The per-bucket signed total contributed by a transaction list. -/
def balDelta (l : List Transaction) (a : Nat) (c : String) : Int :=
  ((l.filter fun tx => tx.isCompleted && tx.accountId == a && tx.currency == c).map
    signedValue).sum

theorem balFold_lookup (a : Nat) (c : String) : ∀ (l : List Transaction) (bal : BalMap),
    lookupBalance (l.foldl balStep bal) a c =
      (match lookupBalance bal a c with
       | some v => some (v + balDelta l a c)
       | none => if touchesBucket l a c then some (balDelta l a c) else none) := by
  intro l
  induction l with
  | nil =>
    intro bal
    cases hb : lookupBalance bal a c <;> simp [hb, balDelta, touchesBucket]
  | cons tx rest ih =>
    intro bal
    rw [List.foldl_cons, ih (balStep bal tx)]
    by_cases htx : tx.isCompleted = true ∧ tx.accountId = a ∧ tx.currency = c
    · obtain ⟨ht, ha, hc⟩ := htx
      have hsame := lookupBalance_balStep_same bal tx ht
      rw [ha, hc] at hsame
      rw [hsame]
      have hpred : (fun tx : Transaction =>
          tx.isCompleted && tx.accountId == a && tx.currency == c) tx = true := by
        simp [ht, ha, hc]
      have hdelta : balDelta (tx :: rest) a c = signedValue tx + balDelta rest a c := by
        unfold balDelta
        simp [List.filter_cons, hpred]
      have htouch : touchesBucket (tx :: rest) a c = true := by
        unfold touchesBucket
        simp [List.any_cons, hpred]
      cases hb : lookupBalance bal a c with
      | none =>
        simp only [hb, Option.getD_none, htouch, hdelta, if_true]
        congr 1
        ring
      | some v =>
        simp only [hb, Option.getD_some, hdelta]
        congr 1
        ring
    · have hother := lookupBalance_balStep_other bal tx a c htx
      rw [hother]
      have hpred : (fun tx : Transaction =>
          tx.isCompleted && tx.accountId == a && tx.currency == c) tx = false := by
        simp only
        rw [← Bool.not_eq_true]
        intro hcon
        simp only [Bool.and_eq_true, beq_iff_eq] at hcon
        exact htx ⟨hcon.1.1, hcon.1.2, hcon.2⟩
      have hdelta : balDelta (tx :: rest) a c = balDelta rest a c := by
        unfold balDelta
        simp [List.filter_cons, hpred]
      have htouch : touchesBucket (tx :: rest) a c = touchesBucket rest a c := by
        unfold touchesBucket
        simp [List.any_cons, hpred]
      rw [hdelta, htouch]

theorem balDelta_eq_sums (a : Nat) (c : String) : ∀ l : List Transaction,
    balDelta l a c = completedSum l .income a c - completedSum l .expense a c := by
  intro l
  induction l with
  | nil => simp [balDelta, completedSum]
  | cons tx rest ih =>
    unfold balDelta completedSum
    unfold balDelta completedSum at ih
    rw [List.filter_cons, List.filter_cons, List.filter_cons]
    by_cases h1 : tx.isCompleted = true
    · by_cases h2 : (tx.accountId == a) = true
      · by_cases h3 : (tx.currency == c) = true
        · cases htype : tx.type
          · simp [h1, h2, h3, htype, signedValue, ih]
            ring
          · simp [h1, h2, h3, htype, signedValue, ih]
            ring
        · simp [h1, h2, h3, ih]
      · simp [h1, h2, ih]
    · have h1' : tx.isCompleted = false := by
        cases hcc : tx.isCompleted
        · rfl
        · exact absurd hcc h1
      simp [h1', ih]

theorem assocGet_init (accounts : List Account) (a : Nat) :
    assocGet (accounts.map fun acc => (acc.id, ([] : List (String × Int)))) a = none ∨
    assocGet (accounts.map fun acc => (acc.id, ([] : List (String × Int)))) a = some [] := by
  induction accounts with
  | nil => exact Or.inl rfl
  | cons acc rest ih =>
    by_cases hp : ((acc.id : Nat) == a) = true
    · right; simp [assocGet, hp]
    · simpa [assocGet, hp] using ih

theorem lookupBalance_init (accounts : List Account) (a : Nat) (c : String) :
    lookupBalance (accounts.map fun acc => (acc.id, ([] : List (String × Int)))) a c = none := by
  rcases assocGet_init accounts a with h | h <;> simp [lookupBalance, h, assocGet]

theorem assocGet_init_mem (accounts : List Account) (a : Nat)
    (h : ∃ acc ∈ accounts, acc.id = a) :
    assocGet (accounts.map fun acc => (acc.id, ([] : List (String × Int)))) a = some [] := by
  induction accounts with
  | nil =>
    obtain ⟨acc, h1, _⟩ := h
    simp at h1
  | cons acc rest ih =>
    by_cases hp : ((acc.id : Nat) == a) = true
    · simp [assocGet, hp]
    · obtain ⟨acc2, hmem, hid⟩ := h
      rcases List.mem_cons.mp hmem with hh | hh
      · subst hh
        exact absurd (by simp [hid]) hp
      · simpa [assocGet, hp] using ih ⟨acc2, hh, hid⟩

theorem assocGet_balStep_acc_other (bal : BalMap) (tx : Transaction) (a : Nat)
    (h : tx.isCompleted = true → tx.accountId ≠ a) :
    assocGet (balStep bal tx) a = assocGet bal a := by
  by_cases hcomp : tx.isCompleted = true
  · have ha := h hcomp
    unfold balStep
    simp only [hcomp, Bool.not_true, Bool.false_eq_true, if_false]
    rw [assocGet_assocSet_ne _ _ _ _ (fun hq => ha hq.symm),
      assocGet_ensureAccount_ne _ _ _ (fun hq => ha hq.symm)]
  · have hcomp' : tx.isCompleted = false := by
      cases hcc : tx.isCompleted
      · rfl
      · exact absurd hcc hcomp
    unfold balStep
    rw [hcomp']
    rfl

theorem assocGet_balFold_acc_other (a : Nat) : ∀ (l : List Transaction) (bal : BalMap),
    (∀ tx ∈ l, tx.isCompleted = true → tx.accountId ≠ a) →
    assocGet (l.foldl balStep bal) a = assocGet bal a := by
  intro l
  induction l with
  | nil => intro bal _; rfl
  | cons tx rest ih =>
    intro bal h
    rw [List.foldl_cons, ih _ (fun u hu => h u (by simp [hu])),
      assocGet_balStep_acc_other bal tx a (h tx (by simp))]

theorem balFold_filter_completed : ∀ (l : List Transaction) (bal : BalMap),
    (l.filter (·.isCompleted)).foldl balStep bal = l.foldl balStep bal := by
  intro l
  induction l with
  | nil => intro bal; rfl
  | cons tx rest ih =>
    intro bal
    rw [List.filter_cons]
    by_cases hc : tx.isCompleted = true
    · rw [if_pos (by simp [hc]), List.foldl_cons, List.foldl_cons, ih]
    · have hc' : tx.isCompleted = false := by
        cases hcc : tx.isCompleted
        · rfl
        · exact absurd hcc hc
      have hskip : balStep bal tx = bal := by
        unfold balStep
        rw [hc']
        rfl
      rw [if_neg (by simp [hc']), List.foldl_cons, hskip, ih]

/-- **C3** (balance invariant): a bucket `(a, c)` touched by some
completed transaction reports exactly the income sum minus the expense
sum over completed transactions of that bucket; transactions with
`isCompleted = false` never affect the output at all; and an account with
no completed transactions keeps its seeded empty currency map. -/
theorem getAccountBalances_spec (db : DB) (a : Nat) (c : String) :
    (touchesBucket db.transactions a c = true →
      lookupBalance (getAccountBalances db) a c =
        some (completedSum db.transactions .income a c -
          completedSum db.transactions .expense a c)) ∧
    getAccountBalances { db with transactions := db.transactions.filter (·.isCompleted) } =
      getAccountBalances db ∧
    ((∃ acc ∈ db.accounts, acc.id = a) →
      (∀ tx ∈ db.transactions, tx.isCompleted = true → tx.accountId ≠ a) →
      assocGet (getAccountBalances db) a = some []) := by
  refine ⟨?_, ?_, ?_⟩
  · intro htouch
    unfold getAccountBalances
    rw [balFold_lookup, lookupBalance_init, htouch]
    show (if true = true then some (balDelta db.transactions a c) else none) = _
    rw [if_pos rfl, balDelta_eq_sums]
  · unfold getAccountBalances
    exact balFold_filter_completed db.transactions _
  · intro hacc hno
    unfold getAccountBalances
    rw [assocGet_balFold_acc_other a db.transactions _ hno, assocGet_init_mem db.accounts a hacc]

/-- Fixture for the C3 witness: one completed income of 1000 and one
pending expense of 300 in the same account and currency, plus an account
with no completed transactions. -/
def balanceAccount : Account :=
  { id := 4, name := "wallet", color := "", icon := "", isDefault := true,
    createdAt := 0, updatedAt := 0 }

def emptyAccount : Account :=
  { id := 8, name := "spare", color := "", icon := "", isDefault := false,
    createdAt := 0, updatedAt := 0 }

def incomeTx : Transaction :=
  { id := 1, type := .income, value := 1000, currency := "USD", description := "pay",
    categoryId := 3, accountId := 4, date := ⟨2024, 0, 5⟩, isCompleted := true,
    completedAt := some 2, isFixed := false, isRepeating := false, repeatConfig := none,
    repeatIndex := none, repeatTotal := none, parentRepeatId := none,
    observation := "", tags := [], createdAt := 1, updatedAt := 1 }

def pendingExpenseTx : Transaction :=
  { incomeTx with
    id := 2
    type := .expense
    value := 300
    isCompleted := false
    completedAt := none }

def balanceDB : DB :=
  { transactions := [incomeTx, pendingExpenseTx], categories := [],
    accounts := [balanceAccount, emptyAccount], settings := none }

/-- Witness for C3: the pending-vs-completed scenario. -/
theorem getAccountBalances_spec_witness :
    lookupBalance (getAccountBalances balanceDB) 4 "USD" =
      some (completedSum balanceDB.transactions .income 4 "USD" -
        completedSum balanceDB.transactions .expense 4 "USD") ∧
    assocGet (getAccountBalances balanceDB) 8 = some [] :=
  ⟨(getAccountBalances_spec balanceDB 4 "USD").1 (by decide),
   (getAccountBalances_spec balanceDB 8 "USD").2.2
     (by decide)
     (by decide)⟩

/-- Sanity: the pending-vs-completed scenario reports 1000, not 700. -/
example : lookupBalance (getAccountBalances balanceDB) 4 "USD" = some 1000 := by decide

/-! ## deleteCategory (C4) -/

def selfTargetCategory : Category :=
  { id := 7, type := .expense, name := "food", color := "", icon := "",
    isDefault := false, isSystem := false, createdAt := 0, updatedAt := 0 }

def keptCategory : Category :=
  { id := 9, type := .expense, name := "other", color := "", icon := "",
    isDefault := true, isSystem := true, createdAt := 0, updatedAt := 0 }

def categorizedTx : Transaction := { incomeTx with categoryId := 7 }

def deleteCatState : AppState :=
  { db := { transactions := [categorizedTx], categories := [selfTargetCategory, keptCategory],
            accounts := [], settings := none },
    nextId := 20, now := 50 }

/-- Counterexample to C4 as stated: with `moveToId` equal to the deleted
id (`deleteCategory(7, 7)`), the repointing rewrites `categoryId` to the
deleted id itself, so a transaction still references category 7 after the
category record is gone. -/
theorem deleteCategory_cex :
    ∃ tx ∈ (deleteCategory 7 7 deleteCatState).db.transactions, tx.categoryId = 7 := by
  decide

/-- **C4** (amended, referential safety): for every pair of distinct ids
`catA ≠ catB`, after `deleteCategory(catA, catB)` no transaction
references `catA`; every transaction that referenced `catA` now carries
`catB` and `updatedAt` refreshed to the call time; other transactions are
unchanged; and the `catA` category record is removed while others stay. -/
theorem deleteCategory_spec (catA catB : Nat) (s : AppState) (hne : catB ≠ catA) :
    (∀ tx ∈ (deleteCategory catA catB s).db.transactions, tx.categoryId ≠ catA) ∧
    (∀ tx ∈ s.db.transactions, tx.categoryId = catA →
      { tx with categoryId := catB, updatedAt := s.now } ∈
        (deleteCategory catA catB s).db.transactions) ∧
    (∀ tx ∈ s.db.transactions, tx.categoryId ≠ catA →
      tx ∈ (deleteCategory catA catB s).db.transactions) ∧
    (∀ cat ∈ (deleteCategory catA catB s).db.categories, cat.id ≠ catA) ∧
    (∀ cat ∈ s.db.categories, cat.id ≠ catA →
      cat ∈ (deleteCategory catA catB s).db.categories) := by
  unfold deleteCategory
  refine ⟨?_, ?_, ?_, ?_, ?_⟩
  · intro tx htx
    simp only [List.mem_map] at htx
    obtain ⟨u, hu, heq⟩ := htx
    by_cases hc : (u.categoryId == catA) = true
    · rw [if_pos hc] at heq
      rw [← heq]
      exact hne
    · rw [if_neg hc] at heq
      rw [← heq]
      simpa using hc
  · intro tx htx hcat
    simp only [List.mem_map]
    exact ⟨tx, htx, by rw [if_pos (by simp [hcat])]⟩
  · intro tx htx hcat
    simp only [List.mem_map]
    exact ⟨tx, htx, by rw [if_neg (by simp [hcat])]⟩
  · intro cat hcat
    have h2 := (List.mem_filter.mp hcat).2
    simpa using h2
  · intro cat hcat hke
    rw [List.mem_filter]
    exact ⟨hcat, by simp [hke]⟩

/-- Witness for C4 (amended) at `deleteCategory(7, 9)`. -/
theorem deleteCategory_spec_witness :
    (∀ tx ∈ (deleteCategory 7 9 deleteCatState).db.transactions, tx.categoryId ≠ 7) ∧
    (∀ tx ∈ deleteCatState.db.transactions, tx.categoryId = 7 →
      { tx with categoryId := 9, updatedAt := 50 } ∈
        (deleteCategory 7 9 deleteCatState).db.transactions) ∧
    (∀ tx ∈ deleteCatState.db.transactions, tx.categoryId ≠ 7 →
      tx ∈ (deleteCategory 7 9 deleteCatState).db.transactions) ∧
    (∀ cat ∈ (deleteCategory 7 9 deleteCatState).db.categories, cat.id ≠ 7) ∧
    (∀ cat ∈ deleteCatState.db.categories, cat.id ≠ 7 →
      cat ∈ (deleteCategory 7 9 deleteCatState).db.categories) :=
  deleteCategory_spec 7 9 deleteCatState (by decide)

/-! ## addTransaction (C9) -/

def orphanDraft : TxDraft :=
  { type := .expense, value := 5, currency := "USD", description := "",
    categoryId := 99, accountId := 98, date := ⟨2024, 0, 2⟩, isCompleted := false,
    completedAt := none, isFixed := false, isRepeating := false, repeatConfig := none,
    repeatIndex := none, repeatTotal := none, parentRepeatId := none,
    observation := "", tags := [] }

def orphanState : AppState :=
  { db := { transactions := [], categories := [], accounts := [], settings := none },
    nextId := 0, now := 7 }

/-- Counterexample to C9 as stated: a draft whose `categoryId` and
`accountId` resolve to no record is still written — `addTransaction` has
no failure path and performs no referential check. -/
theorem addTransaction_cex :
    (∀ cat ∈ orphanState.db.categories, cat.id ≠ orphanDraft.categoryId) ∧
    (∀ acc ∈ orphanState.db.accounts, acc.id ≠ orphanDraft.accountId) ∧
    (addTransaction orphanDraft orphanState).2.db.transactions.length =
      orphanState.db.transactions.length + 1 := by
  decide

/-- **C9** (amended): `addTransaction` performs no referential validation:
even for a draft whose `categoryId`/`accountId` resolve to no category or
account record, it assigns a fresh id and timestamps and writes exactly
one record; there is no `ValidationError` path in the store itself. -/
theorem addTransaction_no_validation (draft : TxDraft) (s : AppState)
    (hcat : ∀ cat ∈ s.db.categories, cat.id ≠ draft.categoryId)
    (hacc : ∀ acc ∈ s.db.accounts, acc.id ≠ draft.accountId)
    (hfresh : ∀ tx ∈ s.db.transactions, tx.id < s.nextId) :
    (addTransaction draft s).2.db.transactions =
      s.db.transactions ++ [mkTxRecord draft s.nextId s.now] ∧
    (addTransaction draft s).1 = mkTxRecord draft s.nextId s.now := by
  constructor
  · rw [addTransaction_state draft s hfresh]
  · rfl

/-- Witness for C9 (amended): the unresolvable draft is written. -/
theorem addTransaction_no_validation_witness :
    (addTransaction orphanDraft orphanState).2.db.transactions =
      orphanState.db.transactions ++ [mkTxRecord orphanDraft 0 7] ∧
    (addTransaction orphanDraft orphanState).1 = mkTxRecord orphanDraft 0 7 :=
  addTransaction_no_validation orphanDraft orphanState (by decide) (by decide) (by decide)

/-! ## Export / import round trip (C8) -/

theorem foldl_putBy_fresh {α κ : Type} [BEq κ] [LawfulBEq κ] (key : α → κ) :
    ∀ (l acc : List α), ((acc ++ l).map key).Nodup →
    l.foldl (putBy key) acc = acc ++ l := by
  intro l
  induction l with
  | nil => intro acc _; simp
  | cons x rest ih =>
    intro acc hnd
    have hx : ∀ u ∈ acc, key u ≠ key x := by
      intro u hu hequ
      rw [List.map_append, List.nodup_append] at hnd
      have hmem1 : key x ∈ acc.map key := by
        rw [← hequ]
        exact List.mem_map_of_mem key hu
      exact hnd.2.2 hmem1 (show key x ∈ (x :: rest).map key by simp)
    rw [List.foldl_cons, putBy_of_fresh key acc x hx]
    have happ : (acc ++ [x]) ++ rest = acc ++ x :: rest := by simp
    rw [ih (acc ++ [x]) (by rw [happ]; exact hnd), happ]

/-- **C8** (round trip): importing an export of store `s` into an empty
store reproduces the transactions, categories and accounts lists exactly
— every record is inserted as-is with its original id and timestamps,
because the dedup key sets of an empty store are empty. -/
theorem export_import_roundtrip (s : AppState)
    (h1 : (s.db.transactions.map (·.id)).Nodup)
    (h2 : (s.db.categories.map (·.id)).Nodup)
    (h3 : (s.db.accounts.map (·.id)).Nodup) :
    (handleImportData (handleExportData s) emptyDB).transactions = s.db.transactions ∧
    (handleImportData (handleExportData s) emptyDB).categories = s.db.categories ∧
    (handleImportData (handleExportData s) emptyDB).accounts = s.db.accounts := by
  refine ⟨?_, ?_, ?_⟩
  · show s.db.transactions.foldl (putBy Transaction.id) [] = s.db.transactions
    simpa using foldl_putBy_fresh Transaction.id s.db.transactions [] (by simpa using h1)
  · show s.db.categories.foldl (putBy Category.id) [] = s.db.categories
    simpa using foldl_putBy_fresh Category.id s.db.categories [] (by simpa using h2)
  · show s.db.accounts.foldl (putBy Account.id) [] = s.db.accounts
    simpa using foldl_putBy_fresh Account.id s.db.accounts [] (by simpa using h3)

/-- Witness for C8: round trip of the balance fixture store. -/
theorem export_import_roundtrip_witness :
    (handleImportData (handleExportData { db := balanceDB, nextId := 3, now := 11 })
      emptyDB).transactions = balanceDB.transactions ∧
    (handleImportData (handleExportData { db := balanceDB, nextId := 3, now := 11 })
      emptyDB).categories = balanceDB.categories ∧
    (handleImportData (handleExportData { db := balanceDB, nextId := 3, now := 11 })
      emptyDB).accounts = balanceDB.accounts :=
  export_import_roundtrip { db := balanceDB, nextId := 3, now := 11 }
    (by decide) (by decide) (by decide)

end MFO
